import Mathlib

/-!
Verification of the vectorized aggregation hash table of this repository
(`src/query/expression/src/aggregate/aggregate_hashtable.rs`) and of the SUM
aggregate (`src/query/functions/src/aggregates/aggregate_sum.rs`).

The Rust code is shallowly embedded: machine integers become `Nat`/`Int`
(with explicit wrap where it matters), raw pointers become abstract numeric
addresses, `Result` becomes `Except Err`, and a Rust panic (index out of
bounds, non-terminating loop) is modelled by `Option`/`Err.crash`.

The source tree ships only the orchestrator (`aggregate_hashtable.rs`) and
the sum aggregate; the collaborators `Payload`, `ProbeState`,
`row_match_columns` and the `AggregateFunction` trait are declared and used
there but their own files are absent.  Definitions for those collaborators
are modelled from the specification and carry a doc comment starting with
`Modelled from the spec:`.
-/

/-- Error kinds crossing the core boundary.  `Overflow` models
`ErrorCode::Overflow`; `crash` models a Rust panic (index out of bounds or a
loop that cannot terminate); `message` models any other `ErrorCode`. -/
inductive Err where
  | Overflow
  | crash (s : String)
  | message (s : String)
deriving DecidableEq

/-- Modelled from the spec: the group-column type tags (the `DataType` enum
is not part of the provided sources; only its list shape matters here). -/
inductive DataType where
  | number
  | boolean
  | bytes
deriving DecidableEq

/-- Modelled from the spec: the `AggregateFunction` capability of section 4.2
(the trait itself is not in the provided sources).  `needs_drop` is the
`need_manual_drop_state` flag, `init` the initial state value, and `acc`
the per-row accumulate step, which may fail (e.g. decimal overflow). -/
structure AggrFn where
  needs_drop : Bool
  init : Int
  acc : Int → Int → Except Err Int

/-- A directory entry, from `#[repr(packed)] struct Entry` in
`aggregate_hashtable.rs`: `salt : u16`, `page_offset : u16`,
`page_nr : u32` with `0` meaning an empty slot. -/
structure Entry where
  salt : Nat
  page_offset : Nat
  page_nr : Nat
deriving DecidableEq

/-- The all-zero entry produced by the zeroed allocation in `new_entries`. -/
def Entry.zero : Entry := ⟨0, 0, 0⟩

/-- Modelled from the spec: one payload tuple (section 3.1).  The on-page
bytes `[validity | group values | hash | state_ptr]` are modelled as a
record: `key` holds the group values with per-column nullability (the
validity bits), `hash` is the stored 64-bit hash, and `stateAddr` the
64-bit state address stored at `state_offset`. -/
structure Row where
  key : List (Option Int)
  hash : Nat
  stateAddr : Nat
deriving DecidableEq

/-- Modelled from the spec: the `Payload` component (section 4.3), whose
source file is absent.  Rows live in pages of `row_per_page` tuples of
`tuple_size` bytes; `state_addr_offsets` are the per-aggregate offsets into
a row's state block of `state_layout_size` bytes; `aggrs` is the ordered
aggregate list (the source reads `payload.aggrs`). -/
structure Payload where
  rows : List Row
  row_per_page : Nat
  tuple_size : Nat
  state_layout_size : Nat
  state_addr_offsets : List Nat
  aggrs : List AggrFn

/-- Modelled from the spec: arena-backed aggregate-state memory, an
association list from state address to state value (states are private
byte regions; one `Int` per aggregate state is enough for the aggregates
considered here). -/
abbrev Mem := List (Nat × Int)

/-- Read a state cell (a raw-memory load in the source). -/
def memGet (m : Mem) (a : Nat) : Int := ((m.lookup a).getD 0)

/-- Write a state cell (a raw-memory store in the source). -/
def memSet : Mem → Nat → Int → Mem
  | [], a, v => [(a, v)]
  | (b, w) :: rest, a, v =>
    if b = a then (a, v) :: rest else (b, w) :: memSet rest a v

/-- `AggregateHashTable` from `aggregate_hashtable.rs`, plus the modelled
state memory (in Rust the states live in the arena, which the table owns). -/
structure AggregateHashTable where
  payload : Payload
  entries : List Entry
  capacity : Nat
  stateMem : Mem

/-- `LOAD_FACTOR  = 1.5` scaled to the integer threshold the source computes:
`(capacity as f64 / 1.5) as usize`.  For every capacity the table can reach
(a power of two below `2^51`) the `f64` division rounds to a value whose
floor is `2 * capacity / 3`, so the threshold is embedded as exact natural
division. -/
def resize_threshold (capacity : Nat) : Nat := 2 * capacity / 3

/-- `Payload::len`: number of stored rows. -/
def Payload.len (p : Payload) : Nat := p.rows.length

/-- Modelled from the spec: `Payload::get_page_ptr` (section 4.3); pages are
laid out contiguously in the abstract address space, each holding
`row_per_page` tuples of `tuple_size` bytes. -/
def Payload.get_page_ptr (p : Payload) (page : Nat) : Nat :=
  page * p.row_per_page * p.tuple_size

/-- Modelled from the spec: `Payload::get_row_ptr` reconstructs a row
pointer from `(row / rows_per_page, row % rows_per_page)`. -/
def Payload.get_row_ptr (p : Payload) (row : Nat) : Nat :=
  p.get_page_ptr (row / p.row_per_page) + (row % p.row_per_page) * p.tuple_size

/-- Decode an abstract row address back to the stored row, the model of
dereferencing a row pointer.  Addresses outside the payload yield `none`
(in Rust such a dereference would read garbage or fault). -/
def Payload.rowAtAddr (p : Payload) (addr : Nat) : Option Row :=
  p.rows.get? (addr / p.tuple_size)

/-- Modelled from the spec: `Payload::new` (the arena argument is dropped:
bump allocation is modelled by the abstract state memory).  The numeric
layout constants stand in for the layout computed from the types. -/
def Payload.new (group_types : List DataType) (aggrs : List AggrFn) : Payload :=
  { rows := []
  , row_per_page := 256
  , tuple_size := 8 * (group_types.length + 2)
  , state_layout_size := 8 * aggrs.length
  , state_addr_offsets := (List.range aggrs.length).map (8 * ·)
  , aggrs := aggrs }

/-- `AggregateHashTable::new_entries`: the source allocates `capacity`
zeroed `u64`s and reinterprets them as `Entry`, i.e. `capacity` copies of
the all-zero entry. -/
def new_entries (capacity : Nat) : List Entry :=
  List.replicate capacity Entry.zero

/-- `AggregateHashTable::new`: initial capacity 128, zeroed directory,
empty payload. -/
def AggregateHashTable.new (group_types : List DataType) (aggrs : List AggrFn) :
    AggregateHashTable :=
  let capacity := 128
  { entries := new_entries capacity
  , payload := Payload.new group_types aggrs
  , capacity := capacity
  , stateMem := [] }

/-- `AggregateHashTable::len`. -/
def AggregateHashTable.len (t : AggregateHashTable) : Nat := t.payload.len

/-- The linear probe of `resize`: starting from `slot`, advance while the
entry is occupied, wrapping to `0` at `old_capacity` (the source reads
`self.capacity`, still the old value at that point).  Returns `none` when
the index is out of bounds (a Rust panic) or the fuel runs out (the source
loop would not terminate). -/
def findEmptySlot (entries : List Entry) (old_capacity : Nat) :
    Nat → Nat → Option Nat
  | 0, _ => none
  | fuel + 1, slot =>
    match entries.get? slot with
    | none => none
    | some e =>
      if e.page_nr ≠ 0 then
        let slot' := slot + 1
        findEmptySlot entries old_capacity fuel
          (if slot' ≥ old_capacity then 0 else slot')
      else some slot

/-- `AggregateHashTable::resize`.  Faithful to the source, including the
allocation `Self::new_entries(self.capacity)` with the OLD capacity (while
`mask` is computed from `new_capacity`) and the wrap-around at the old
`self.capacity`; the hash is the one stored in the row (`hash_offset`
load).  `none` models a Rust panic inside the loop. -/
def AggregateHashTable.resize (t : AggregateHashTable) (new_capacity : Nat) :
    Option AggregateHashTable :=
  let mask := new_capacity - 1
  let entries0 := new_entries t.capacity
  let step : Option (List Entry) :=
    (List.range t.len).foldlM (fun entries row =>
      match t.payload.rows.get? row with
      | none => none
      | some r =>
        let hash := r.hash
        let hash_slot := hash &&& mask
        match findEmptySlot entries t.capacity (entries.length + 1) hash_slot with
        | none => none
        | some slot =>
          some (entries.set slot
            { salt := hash >>> (64 - 16)
            , page_offset := row % t.payload.row_per_page
            , page_nr := row / t.payload.row_per_page + 1 })) entries0
  step.map (fun es => { t with entries := es, capacity := new_capacity })

/-- Claim C8: a table returned by `new` has capacity exactly 128, an empty
payload (`len = 0`), and a directory of exactly 128 entries all of which
are empty (`page_nr = 0`, coming from the zeroed allocation). -/
theorem new_table_shape (group_types : List DataType) (aggrs : List AggrFn) :
    (AggregateHashTable.new group_types aggrs).capacity = 128
    ∧ (AggregateHashTable.new group_types aggrs).len = 0
    ∧ (AggregateHashTable.new group_types aggrs).entries.length = 128
    ∧ ∀ e ∈ (AggregateHashTable.new group_types aggrs).entries, e.page_nr = 0 := by
  refine ⟨rfl, rfl, by simp [AggregateHashTable.new, new_entries], ?_⟩
  intro e he
  have : e = Entry.zero := List.eq_of_mem_replicate he
  rw [this]
  rfl

/-- Claim C1: evaluating the code at the failing input.  After
`resize(256)` on a fresh table (capacity 128) the directory still has 128
entries while `capacity` was set to 256 — the source allocates
`new_entries(self.capacity)` with the old capacity, so the claimed
invariant `entries.length = capacity` (and the spec's "zeroed directory of
size new_capacity") is violated. -/
theorem resize_allocates_old_capacity_directory :
    ((AggregateHashTable.new [] []).resize 256).map
        (fun u => (u.entries.length, u.capacity)) = some (128, 256)
    ∧ (128 : Nat) ≠ 256 := by
  exact ⟨rfl, by decide⟩

/-- A concrete table used for claim C4: capacity 128, one stored row whose
hash is 200, so the resize bucket `200 & (256 - 1) = 200` lies beyond the
(wrongly old-sized) 128-entry directory. -/
def t4 : AggregateHashTable :=
  { payload :=
    { rows := [{ key := [some 1], hash := 200, stateAddr := 2000 }]
    , row_per_page := 256
    , tuple_size := 24
    , state_layout_size := 8
    , state_addr_offsets := [0]
    , aggrs := [] }
  , entries := new_entries 128
  , capacity := 128
  , stateMem := [(2000, 0)] }

/-- The resize trigger at the top of `probe_and_create`:
`self.capacity - self.len() <= row_count || self.len() > self.resize_threshold()`. -/
def needsResize (capacity len row_count : Nat) : Bool :=
  decide (capacity - len ≤ row_count) || decide (len > resize_threshold capacity)

/-- The doubling loop of `probe_and_create`, fuelled:
`while new_capacity - len <= row_count { new_capacity *= 2 }`.
When the fuel runs out the current value is returned; `chooseNewCapacity`
supplies enough fuel for every positive start (the source loop would only
fail to terminate from `new_capacity = 0`, which is unreachable). -/
def growCapacityAux : Nat → Nat → Nat → Nat → Nat
  | 0, new_capacity, _, _ => new_capacity
  | fuel + 1, new_capacity, len, row_count =>
    if new_capacity - len ≤ row_count then
      growCapacityAux fuel (new_capacity * 2) len row_count
    else new_capacity

/-- The new capacity computed by `probe_and_create` before calling
`resize`: start from `capacity * 2` and double while `new_capacity - len ≤
row_count`. -/
def chooseNewCapacity (capacity len row_count : Nat) : Nat :=
  growCapacityAux (len + row_count + 2) (capacity * 2) len row_count

/-- The capacity-check prologue of `probe_and_create` (source lines
120-127): resize to `chooseNewCapacity` when `needsResize`, else leave the
table untouched. -/
def AggregateHashTable.capacityCheck (t : AggregateHashTable) (row_count : Nat) :
    Option AggregateHashTable :=
  if needsResize t.capacity t.len row_count then
    t.resize (chooseNewCapacity t.capacity t.len row_count)
  else some t

/-- Modelled from the spec: a `Column` collaborator — a sequence of
optionally-null values addressable by row index (section 6). -/
abbrev Column := List (Option Int)

/-- The composite group key of batch row `i`: one value per group column. -/
def keyAt (group_columns : List Column) (i : Nat) : List (Option Int) :=
  group_columns.map (fun c => c.getD i none)

/-- Modelled from the spec: the per-batch scratch of `ProbeState`
(section 4.5) — probe positions, salts and resolved row addresses, indexed
by batch row. -/
structure ProbeScratch where
  ht_offsets : List Nat
  hash_salts : List Nat
  addresses : List Nat

/-- Modelled from the spec: `ProbeState::ajust_group_columns` — compute the
hashes from the group columns (hashing is delegated, here to the abstract
`hashF` applied to the key), then `ht_offsets[i] = hashes[i] & (capacity-1)`
and `hash_salts[i] = hashes[i] >> 48` (section 4.7 step 2). -/
def ProbeScratch.init (hashes : List Nat) (capacity : Nat) : ProbeScratch :=
  { ht_offsets := hashes.map (· &&& (capacity - 1))
  , hash_salts := hashes.map (· >>> (64 - 16))
  , addresses := List.replicate hashes.length 0 }

/-- The output of one classification pass of `probe_and_create`
(source lines 143-166): the possibly-updated directory and the three
selection vectors. -/
structure ClassifyOut where
  entries : List Entry
  empties : List Nat
  compares : List Nat
  noMatches : List Nat

/-- Step 1 of the probe loop: classify every selected row by its directory
entry at `ht_offsets[index]` — empty (occupy it with the salt and the
`page_nr = 1` sentinel), salt match, or salt mismatch.  `none` models the
Rust index panic when `ht_offsets[index]` is outside the directory. -/
def classify (entries : List Entry) (scratch : ProbeScratch) (select : List Nat) :
    Option ClassifyOut :=
  select.foldlM (fun acc index =>
    let off := scratch.ht_offsets.getD index 0
    match acc.entries.get? off with
    | none => none
    | some e =>
      if e.page_nr = 0 then
        some { acc with
          entries := acc.entries.set off
            { e with salt := scratch.hash_salts.getD index 0, page_nr := 1 }
          , empties := acc.empties ++ [index] }
      else if e.salt = scratch.hash_salts.getD index 0 then
        some { acc with compares := acc.compares ++ [index] }
      else
        some { acc with noMatches := acc.noMatches ++ [index] })
    { entries := entries, empties := [], compares := [], noMatches := [] }

/-- Modelled from the spec: `Payload::append_rows` (section 4.3 and 4.7
step 3b) — for each index in `empty_vector`: allocate the next tuple slot,
copy the group values, store the hash, allocate and `init` each aggregate
state in the arena (state blocks start at the arbitrary base 1024 and are
`state_layout_size` apart), record the state base address in the slot, and
write the real `(page_nr, page_offset)` back into the directory entry the
classification occupied; the new row's address is recorded in
`addresses[index]`. -/
def appendRows (t : AggregateHashTable) (scratch : ProbeScratch)
    (hashes : List Nat) (empties : List Nat) (group_columns : List Column) :
    AggregateHashTable × ProbeScratch :=
  empties.foldl (fun (acc : AggregateHashTable × ProbeScratch) index =>
    let t := acc.1
    let scratch := acc.2
    let row_idx := t.payload.rows.length
    let stateAddr := 1024 + row_idx * t.payload.state_layout_size
    let row : Row :=
      { key := keyAt group_columns index
      , hash := hashes.getD index 0
      , stateAddr := stateAddr }
    let mem := (t.payload.aggrs.zip t.payload.state_addr_offsets).foldl
      (fun mem ao => memSet mem (stateAddr + ao.2) ao.1.init) t.stateMem
    let off := scratch.ht_offsets.getD index 0
    let entries :=
      match t.entries.get? off with
      | none => t.entries
      | some e => t.entries.set off
          { e with
            page_nr := row_idx / t.payload.row_per_page + 1
            page_offset := row_idx % t.payload.row_per_page }
    let addr := t.payload.get_row_ptr row_idx
    ({ t with
        payload := { t.payload with rows := t.payload.rows ++ [row] }
      , entries := entries
      , stateMem := mem },
     { scratch with addresses := scratch.addresses.set index addr }))
    (t, scratch)

/-- Step 3 of the probe loop (source lines 180-188), faithful to the
source: the directory entry is read at `self.entries[index]` — the BATCH
ROW index, not `ht_offsets[index]` — and the candidate address is
`get_page_ptr(page_nr - 1) + page_offset * tuple_size` (`page_nr - 1` is a
wrapping `u32` subtraction in release builds).  `none` models the Rust
index panic when `index` is outside the directory. -/
def compareAddresses (t : AggregateHashTable) (scratch : ProbeScratch)
    (compares : List Nat) : Option ProbeScratch :=
  compares.foldlM (fun sc index =>
    match t.entries.get? index with
    | none => none
    | some e =>
      let page_minus_one := (e.page_nr + (2 ^ 32 - 1)) % 2 ^ 32
      let page_ptr := t.payload.get_page_ptr page_minus_one
      let page_offset := e.page_offset * t.payload.tuple_size
      some { sc with addresses := sc.addresses.set index (page_ptr + page_offset) })
    scratch

/-- Modelled from the spec: `row_match_columns` (section 4.6) — compare each
candidate row (dereferenced through `addresses[index]`) against the input
key, nulls-equal per column, appending unequal indices to the no-match
vector.  An address outside the payload (possible only through the
`entries[index]` slip in `compareAddresses`) counts as a failed compare;
in Rust it would read garbage memory. -/
def rowMatchColumns (t : AggregateHashTable) (scratch : ProbeScratch)
    (group_columns : List Column) (compares : List Nat) (noMatches : List Nat) :
    List Nat :=
  compares.foldl (fun nm index =>
    match t.payload.rowAtAddr (scratch.addresses.getD index 0) with
    | none => nm ++ [index]
    | some r =>
      if r.key = keyAt group_columns index then nm else nm ++ [index])
    noMatches

/-- Step 5 of the probe loop (source lines 204-211): advance the probe
position of every no-match row by one, wrapping to 0 at `capacity`. -/
def advanceProbes (scratch : ProbeScratch) (capacity : Nat) (noMatches : List Nat) :
    ProbeScratch :=
  noMatches.foldl (fun sc index =>
    let v := sc.ht_offsets.getD index 0 + 1
    { sc with ht_offsets := sc.ht_offsets.set index (if v ≥ capacity then 0 else v) })
    scratch

/-- The `while remaining_entries > 0` loop of `probe_and_create`, fuelled
(`none` models a probe loop that cannot terminate or an index panic
inside it).  Carries the accumulated `new_group_count`. -/
def probeLoop (fuel : Nat) (t : AggregateHashTable) (scratch : ProbeScratch)
    (hashes : List Nat) (group_columns : List Column) (select : List Nat)
    (new_group_count : Nat) :
    Option (Nat × AggregateHashTable × ProbeScratch) :=
  match select with
  | [] => some (new_group_count, t, scratch)
  | _ :: _ =>
    match fuel with
    | 0 => none
    | fuel + 1 =>
      match classify t.entries scratch select with
      | none => none
      | some c =>
        let t := { t with entries := c.entries }
        let (t, scratch) :=
          if c.empties.length ≠ 0 then appendRows t scratch hashes c.empties group_columns
          else (t, scratch)
        match compareAddresses t scratch c.compares with
        | none => none
        | some scratch =>
          let noMatches := rowMatchColumns t scratch group_columns c.compares c.noMatches
          let scratch := advanceProbes scratch t.capacity noMatches
          probeLoop fuel t scratch hashes group_columns noMatches
            (new_group_count + c.empties.length)

/-- `AggregateHashTable::probe_and_create`: capacity check, hash and
scratch initialization, then the classify loop.  `hashF` is the abstract
group-key hash function (hash computation is delegated in the source).
Returns the new-group count, the mutated table, and the per-row addresses
(needed by `add_groups` for the state pointers). -/
def AggregateHashTable.probe_and_create (t : AggregateHashTable)
    (hashF : List (Option Int) → Nat) (group_columns : List Column)
    (row_count : Nat) : Option (Nat × AggregateHashTable × ProbeScratch) :=
  match t.capacityCheck row_count with
  | none => none
  | some t =>
    let hashes := (List.range row_count).map (fun i => hashF (keyAt group_columns i))
    let scratch := ProbeScratch.init hashes t.capacity
    probeLoop (t.capacity * (row_count + 1) + row_count + 1) t scratch hashes
      group_columns (List.range row_count) 0

/-- Modelled from the spec: `accumulate_keys` of the aggregate capability
(section 4.2) — for each `i ∈ [0, row_count)`, update the state at
`state_places[i] + offset` with the `i`-th argument row; any failure
propagates. -/
def accumulateKeys (a : AggrFn) (state_places : List Nat) (offset : Nat)
    (args : List Int) (row_count : Nat) (mem : Mem) : Except Err Mem :=
  (List.range row_count).foldlM (fun mem i =>
    let p := state_places.getD i 0 + offset
    (a.acc (memGet mem p) (args.getD i 0)).map (fun v => memSet mem p v)) mem

/-- `AggregateHashTable::add_groups`: probe-and-create, then collect the
state pointers (`state_places[i]` is the 64-bit state address loaded from
`addresses[i] + state_offset`; a load through a bad address yields 0 in the
model where Rust would read garbage), then accumulate each aggregate over
its argument column.  A panic in the probe phase surfaces as `Err.crash`. -/
def AggregateHashTable.add_groups (t : AggregateHashTable)
    (hashF : List (Option Int) → Nat) (group_columns : List Column)
    (params : List (List Int)) (row_count : Nat) :
    Except Err (Nat × AggregateHashTable) :=
  match t.probe_and_create hashF group_columns row_count with
  | none => .error (.crash "probe_and_create")
  | some (new_group_count, t, scratch) =>
    let state_places := (List.range row_count).map (fun i =>
      match t.payload.rowAtAddr (scratch.addresses.getD i 0) with
      | some r => r.stateAddr
      | none => 0)
    match ((t.payload.aggrs.zip params).zip t.payload.state_addr_offsets).foldlM
        (fun mem x => accumulateKeys x.1.1 state_places x.2 x.1.2 row_count mem)
        t.stateMem with
    | .error e => .error e
    | .ok mem => .ok (new_group_count, { t with stateMem := mem })

/-- `AggregateHashTable::combine`: the source body is empty (`{}`); the
table is returned unchanged and `other` is ignored. -/
def AggregateHashTable.combine (t : AggregateHashTable)
    (_other : AggregateHashTable) : AggregateHashTable := t

/-- The state-address load performed per row by `Drop` (and by the
finalize sweep): `load::<u64>(get_row_ptr(row) + state_offset)`, i.e. the
`stateAddr` stored in the row; 0 for a row index outside the payload. -/
def rowStateAddr (t : AggregateHashTable) (row : Nat) : Nat :=
  ((t.payload.rows.get? row).map Row.stateAddr).getD 0

/-- The inner row sweep of `impl Drop for AggregateHashTable` for one
indexed (aggregate, state offset) pair `x`: if `need_manual_drop_state`,
one `drop_state(state_addr + addr_offset)` call per payload row; a call is
recorded as (aggregate index, dropped address). -/
def dropBlock (t : AggregateHashTable) (x : Nat × (AggrFn × Nat)) :
    List (Nat × Nat) :=
  if x.2.1.needs_drop then
    (List.range t.len).map (fun row => (x.1, rowStateAddr t row + x.2.2))
  else []

/-- `impl Drop for AggregateHashTable` as the list of emitted drop calls,
in source order: aggregates (zipped with their state offsets) outermost,
payload rows innermost. -/
def dropCalls (t : AggregateHashTable) : List (Nat × Nat) :=
  ((t.payload.aggrs.zip t.payload.state_addr_offsets).enum).flatMap (dropBlock t)

set_option maxRecDepth 4000 in
/-- Claim C4: evaluating the code at the failing input.  `resize(256)` on a
table holding one row with stored hash 200 panics (modelled as `none`):
the code computes the bucket with the NEW mask (`200 & 255 = 200`) but
probes a directory allocated with the OLD capacity (128 entries) and wraps
at the old capacity, so the claimed "linear probe with wrap-around modulo
new_capacity over a zeroed array of new_capacity entries" does not hold. -/
theorem resize_probes_old_capacity_directory :
    t4.resize 256 = none ∧ t4.len = 1 := by
  exact ⟨rfl, rfl⟩

/-- An integer SUM aggregate over the modelled capability (no drop needed,
initial value 0, infallible addition). -/
def sumAggr : AggrFn :=
  { needs_drop := false, init := 0, acc := fun s v => .ok (s + v) }

/-- A concrete table for claim C2: capacity 8; two stored groups, key 10 at
payload row 0 (directory slot 0) and key 20 at payload row 1 (directory
slot 5); both stored hashes have salt 0. -/
def t2 : AggregateHashTable :=
  { payload :=
    { rows :=
      [ { key := [some 10], hash := 0, stateAddr := 2000 }
      , { key := [some 20], hash := 5, stateAddr := 2008 } ]
    , row_per_page := 256
    , tuple_size := 24
    , state_layout_size := 8
    , state_addr_offsets := [0]
    , aggrs := [sumAggr] }
  , entries :=
      [ { salt := 0, page_offset := 0, page_nr := 1 }
      , Entry.zero, Entry.zero, Entry.zero, Entry.zero
      , { salt := 0, page_offset := 1, page_nr := 1 }
      , Entry.zero, Entry.zero ]
  , capacity := 8
  , stateMem := [(2000, 10), (2008, 20)] }

/-- The hash function for the C2 scenario: key 20 hashes to 5 (bucket 5,
salt 0), everything else to 0. -/
def hashF2 : List (Option Int) → Nat :=
  fun k => if k = [some 20] then 5 else 0

set_option maxRecDepth 8000 in
/-- Claim C2: evaluating the code at the failing input.  Probing a
one-row batch whose key 20 is already stored (hash 5, so the
classification inspects directory slot `ht_offsets[0] = 5` and the salt
matches) nevertheless creates a NEW group (returns 1, payload grows from 2
to 3 rows): the candidate address was taken from `entries[0]` — the batch
row index — which points at the row with key 10, so the key compare fails
and the row is re-inserted.  Under the claimed address computation (entry
at `ht_offsets[i]`, i.e. slot 5) the compare would have matched and no
group would have been created. -/
theorem probe_reads_directory_at_row_index :
    (t2.probe_and_create hashF2 [[some 20]] 1).map
        (fun r => (r.1, r.2.1.payload.rows.length)) = some (1, 3)
    ∧ (t2.payload.rows.map Row.key).contains [some 20] = true := by
  exact ⟨rfl, rfl⟩

/-- The table `T1` of the merge scenario of claim C3: groups k=1 (SUM 5)
and k=2 (SUM 7). -/
def t3a : AggregateHashTable :=
  { payload :=
    { rows :=
      [ { key := [some 1], hash := 1, stateAddr := 3000 }
      , { key := [some 2], hash := 2, stateAddr := 3008 } ]
    , row_per_page := 256
    , tuple_size := 24
    , state_layout_size := 8
    , state_addr_offsets := [0]
    , aggrs := [sumAggr] }
  , entries := new_entries 128
  , capacity := 128
  , stateMem := [(3000, 5), (3008, 7)] }

/-- The table `T2` of the merge scenario of claim C3: groups k=2 (SUM 3)
and k=3 (SUM 9). -/
def t3b : AggregateHashTable :=
  { payload :=
    { rows :=
      [ { key := [some 2], hash := 2, stateAddr := 3000 }
      , { key := [some 3], hash := 3, stateAddr := 3008 } ]
    , row_per_page := 256
    , tuple_size := 24
    , state_layout_size := 8
    , state_addr_offsets := [0]
    , aggrs := [sumAggr] }
  , entries := new_entries 128
  , capacity := 128
  , stateMem := [(3000, 3), (3008, 9)] }

/-- Claim C3: evaluating the code at the failing input.  `combine` is an
empty stub, so `T1.combine(T2)` leaves `T1` completely unchanged: the
group k=3 present in `T2` is still absent from `T1`, and k=2 still sums to
7 (the claim requires k=3 → 9 to appear and k=2 → 10). -/
theorem combine_is_a_stub :
    t3a.combine t3b = t3a
    ∧ (t3b.payload.rows.map Row.key).contains [some 3] = true
    ∧ ((t3a.combine t3b).payload.rows.map Row.key).contains [some 3] = false
    ∧ memGet (t3a.combine t3b).stateMem 3008 = 7 := by
  exact ⟨rfl, rfl, rfl, rfl⟩

/-- `accumulate_keys` over zero rows leaves the state memory untouched and
cannot fail. -/
lemma accumulateKeys_zero_rows (a : AggrFn) (state_places : List Nat)
    (offset : Nat) (args : List Int) (mem : Mem) :
    accumulateKeys a state_places offset args 0 mem = .ok mem := rfl

/-- The accumulate fold of `add_groups` over zero rows is a no-op for any
aggregate list. -/
lemma foldlM_accumulateKeys_zero (state_places : List Nat)
    (l : List ((AggrFn × List Int) × Nat)) (mem : Mem) :
    l.foldlM (fun mem x => accumulateKeys x.1.1 state_places x.2 x.1.2 0 mem) mem
      = Except.ok mem := by
  induction l generalizing mem with
  | nil => rfl
  | cons hd tl ih =>
    simp only [List.foldlM_cons, accumulateKeys_zero_rows]
    exact ih mem

/-- A successful `resize` only replaces the directory and the capacity
field: payload rows and aggregate-state memory are untouched. -/
lemma resize_preserves (t : AggregateHashTable) (nc : Nat)
    (t' : AggregateHashTable) (h : t.resize nc = some t') :
    t'.payload = t.payload ∧ t'.stateMem = t.stateMem ∧ t'.capacity = nc := by
  simp only [AggregateHashTable.resize, Option.map_eq_some'] at h
  obtain ⟨es, _, hf⟩ := h
  rw [← hf]
  exact ⟨rfl, rfl, rfl⟩

/-- `add_groups` with `row_count = 0` is exactly the capacity check: the
probe loop, the state-pointer collection and the accumulate folds all run
over zero rows. -/
lemma add_groups_empty_eq (t : AggregateHashTable)
    (hashF : List (Option Int) → Nat) (group_columns : List Column)
    (params : List (List Int)) :
    t.add_groups hashF group_columns params 0 =
      (match t.capacityCheck 0 with
       | none => .error (.crash "probe_and_create")
       | some t1 => .ok (0, t1)) := by
  unfold AggregateHashTable.add_groups AggregateHashTable.probe_and_create
  cases h : t.capacityCheck 0 with
  | none => rfl
  | some t1 =>
    simp only [List.range_zero, List.map_nil, probeLoop,
      foldlM_accumulateKeys_zero]

/-- Claim C9 (amended): an empty batch creates no groups and, whenever it
returns at all, returns `Ok(0)` with payload rows and aggregate states
unchanged.  It is a STRICT no-op (directory and capacity also unchanged)
provided the capacity check does not fire, i.e. when `len < capacity` and
`len ≤ capacity / LOAD_FACTOR` on entry.  When the check fires, the table
attempts a resize even for `n = 0`: if that (buggy) resize completes, the
call returns `Ok(0)` with the directory rebuilt and the capacity grown to
the chosen new capacity; if the resize panics, the call panics instead of
returning. -/
theorem add_groups_empty_batch (t : AggregateHashTable)
    (hashF : List (Option Int) → Nat) (group_columns : List Column)
    (params : List (List Int)) :
    (∀ n' t', t.add_groups hashF group_columns params 0 = .ok (n', t') →
        n' = 0 ∧ t'.payload = t.payload ∧ t'.stateMem = t.stateMem)
    ∧ (t.len < t.capacity → t.len ≤ resize_threshold t.capacity →
        t.add_groups hashF group_columns params 0 = .ok (0, t))
    ∧ (needsResize t.capacity t.len 0 = true →
        (∀ t', t.resize (chooseNewCapacity t.capacity t.len 0) = some t' →
            t.add_groups hashF group_columns params 0 = .ok (0, t')
            ∧ t'.payload = t.payload ∧ t'.stateMem = t.stateMem
            ∧ t'.capacity = chooseNewCapacity t.capacity t.len 0)
        ∧ (t.resize (chooseNewCapacity t.capacity t.len 0) = none →
            t.add_groups hashF group_columns params 0
              = .error (.crash "probe_and_create"))) := by
  have hkey := add_groups_empty_eq t hashF group_columns params
  refine ⟨?_, ?_, ?_⟩
  · intro n' t' hok
    rw [hkey] at hok
    cases h : t.capacityCheck 0 with
    | none =>
      rw [h] at hok
      exact Except.noConfusion hok
    | some t1 =>
      rw [h] at hok
      injection hok with hpair
      injection hpair with h0 ht
      refine ⟨h0.symm, ?_, ?_⟩
      · unfold AggregateHashTable.capacityCheck at h
        by_cases hnr : needsResize t.capacity t.len 0 = true
        · rw [if_pos hnr] at h
          obtain ⟨hp, _, _⟩ := resize_preserves t _ t1 h
          rw [← ht, hp]
        · rw [if_neg hnr] at h
          injection h with h
          rw [← ht, ← h]
      · unfold AggregateHashTable.capacityCheck at h
        by_cases hnr : needsResize t.capacity t.len 0 = true
        · rw [if_pos hnr] at h
          obtain ⟨_, hs, _⟩ := resize_preserves t _ t1 h
          rw [← ht, hs]
        · rw [if_neg hnr] at h
          injection h with h
          rw [← ht, ← h]
  · intro h1 h2
    have hnr : needsResize t.capacity t.len 0 = false := by
      unfold needsResize
      simp only [Bool.or_eq_false_iff, decide_eq_false_iff_not, not_le, not_lt]
      omega
    rw [hkey]
    unfold AggregateHashTable.capacityCheck
    rw [hnr]
    simp
  · intro htrig
    constructor
    · intro t' hres
      obtain ⟨hp, hs, hc⟩ := resize_preserves t _ t' hres
      refine ⟨?_, hp, hs, hc⟩
      rw [hkey]
      unfold AggregateHashTable.capacityCheck
      rw [if_pos htrig, hres]
    · intro hres
      rw [hkey]
      unfold AggregateHashTable.capacityCheck
      rw [if_pos htrig, hres]

/-- A concrete reachable-shaped table for the C9 counterexample: capacity
128, 100 stored groups (so `len = 100 > 85 = resize_threshold 128`), row
`i` holding key `i` with stored hash `i` and a consistent directory entry
at slot `i`. -/
def t9 : AggregateHashTable :=
  { payload :=
    { rows := (List.range 100).map (fun i =>
        { key := [some (Int.ofNat i)], hash := i, stateAddr := 1024 + 8 * i })
    , row_per_page := 256
    , tuple_size := 24
    , state_layout_size := 8
    , state_addr_offsets := [0]
    , aggrs := [] }
  , entries := (List.range 128).map (fun s =>
      if s < 100 then { salt := 0, page_offset := s, page_nr := 1 } else Entry.zero)
  , capacity := 128
  , stateMem := (List.range 100).map (fun i => (1024 + 8 * i, (0 : Int))) }

/-- Like `t9`, but row 0 stores hash 200: under the grown mask,
`200 & 255 = 200` lies beyond the old 128-entry directory that the buggy
resize allocates, so the triggered resize panics.  (The directory contents
are immaterial to an `n = 0` call; only `len` and the stored hashes are
read.) -/
def t9b : AggregateHashTable :=
  { payload :=
    { rows := (List.range 100).map (fun i =>
        { key := [some (Int.ofNat i)]
        , hash := if i = 0 then 200 else i
        , stateAddr := 1024 + 8 * i })
    , row_per_page := 256
    , tuple_size := 24
    , state_layout_size := 8
    , state_addr_offsets := [0]
    , aggrs := [] }
  , entries := (List.range 128).map (fun s =>
      if s < 100 then { salt := 0, page_offset := s, page_nr := 1 } else Entry.zero)
  , capacity := 128
  , stateMem := (List.range 100).map (fun i => (1024 + 8 * i, (0 : Int))) }

set_option maxRecDepth 40000 in
/-- Claim C9: counterexample to the claim as stated, in both trigger
outcomes.  On `t9` (100 groups at capacity 128, so
`len > capacity / LOAD_FACTOR`), `add_batch` with `n = 0` returns `Ok(0)`
and leaves the payload rows unchanged but is NOT a no-op: the capacity
check fires and the table is resized, capacity becoming 256 with the
directory rebuilt.  On `t9b` (same load, but one stored hash masks past
the old directory size) the triggered resize panics, so the call does not
even return `Ok(0)`. -/
theorem add_groups_empty_batch_resizes :
    ((t9.add_groups (fun _ => 0) [] [] 0).map
        (fun r => (r.1, r.2.capacity)) = .ok (0, 256)
      ∧ (t9.add_groups (fun _ => 0) [] [] 0).map
          (fun r => r.2.payload.rows) = .ok t9.payload.rows
      ∧ t9.capacity = 128)
    ∧ t9b.add_groups (fun _ => 0) [] [] 0 = .error (.crash "probe_and_create") := by
  exact ⟨⟨rfl, rfl, rfl⟩, rfl⟩

/-- The aggregate used in the drop-safety scenario: it owns an external
handle, so `need_manual_drop_state` is true. -/
def dropAggr : AggrFn :=
  { needs_drop := true, init := 0, acc := fun s v => .ok (s + v) }

/-- A table with `n` groups and one `needs_drop` aggregate, for the
drop-safety scenario of claim C6 (row `i` stores state address
`1024 + 16 * i`, so state addresses are pairwise distinct). -/
def dropTable (n : Nat) : AggregateHashTable :=
  { payload :=
    { rows := (List.range n).map (fun i =>
        { key := [some (Int.ofNat i)], hash := i, stateAddr := 1024 + 16 * i })
    , row_per_page := 256
    , tuple_size := 24
    , state_layout_size := 16
    , state_addr_offsets := [0]
    , aggrs := [dropAggr] }
  , entries := new_entries 128
  , capacity := 128
  , stateMem := (List.range n).map (fun i => (1024 + 16 * i, (0 : Int))) }

/-- A drop block for a pair indexed `n` contains no call tagged with a
different aggregate index. -/
lemma count_dropBlock_ne (t : AggregateHashTable) (key : Nat × Nat)
    (n : Nat) (x : AggrFn × Nat) (h : key.1 ≠ n) :
    (dropBlock t (n, x)).count key = 0 := by
  unfold dropBlock
  split
  · rw [List.count_eq_zero]
    intro hmem
    obtain ⟨row, _, heq⟩ := List.mem_map.mp hmem
    exact h (by rw [← heq])
  · rfl

/-- Counting one drop call over the whole flattened sweep reduces to
counting it inside the block of its own aggregate index. -/
lemma count_dropCalls_aux (t : AggregateHashTable) (key : Nat × Nat) :
    ∀ (l : List (AggrFn × Nat)) (n : Nat),
      (((List.enumFrom n l).flatMap (dropBlock t)).count key) =
        (if n ≤ key.1 then
          match l.get? (key.1 - n) with
          | some ao => (dropBlock t (key.1, ao)).count key
          | none => 0
        else 0) := by
  intro l
  induction l with
  | nil =>
    intro n
    simp
  | cons ao l ih =>
    intro n
    rw [List.enumFrom, List.flatMap_cons, List.count_append]
    rcases Nat.lt_trichotomy n key.1 with hlt | heq | hgt
    · rw [count_dropBlock_ne t key n ao (by omega), ih (n + 1)]
      rw [if_pos (by omega), if_pos (by omega)]
      have hsub : key.1 - n = (key.1 - (n + 1)) + 1 := by omega
      rw [hsub, List.get?_cons_succ]
      exact Nat.zero_add _
    · subst heq
      rw [ih (key.1 + 1), if_neg (by omega), if_pos (le_refl _)]
      simp
    · rw [count_dropBlock_ne t key n ao (by omega), ih (n + 1)]
      rw [if_neg (by omega), if_neg (by omega)]

/-- `get?` on a zip, characterized by `get?` on the two lists. -/
lemma get?_zip_eq_def {α β : Type} :
    ∀ (l : List α) (l' : List β) (i : Nat),
      (l.zip l').get? i =
        (match l.get? i, l'.get? i with
         | some a, some b => some (a, b)
         | _, _ => none) := by
  intro l
  induction l with
  | nil => intro l' i; simp
  | cons x xs ih =>
    intro l' i
    cases l' with
    | nil => simp
    | cons y ys =>
      cases i with
      | zero => rfl
      | succ i => simpa using ih ys i

/-- Counting a call in the whole sweep, when the call's aggregate index has
a (aggregate, offset) pair. -/
lemma count_dropCalls_get (t : AggregateHashTable) (key : Nat × Nat)
    (ao : AggrFn × Nat)
    (h : (t.payload.aggrs.zip t.payload.state_addr_offsets).get? key.1 = some ao) :
    (dropCalls t).count key = (dropBlock t (key.1, ao)).count key := by
  rw [dropCalls, List.enum, count_dropCalls_aux t key _ 0, if_pos (Nat.zero_le _)]
  simp only [Nat.sub_zero, h]

/-- Counting a call in the whole sweep, when the call's aggregate index has
no (aggregate, offset) pair. -/
lemma count_dropCalls_none (t : AggregateHashTable) (key : Nat × Nat)
    (h : (t.payload.aggrs.zip t.payload.state_addr_offsets).get? key.1 = none) :
    (dropCalls t).count key = 0 := by
  rw [dropCalls, List.enum, count_dropCalls_aux t key _ 0, if_pos (Nat.zero_le _)]
  simp only [Nat.sub_zero, h]

/-- A map over `range n` whose images are pairwise distinct at the preimage
of `key` contains `key` exactly once. -/
lemma count_map_range_eq_one (f : Nat → Nat × Nat) (key : Nat × Nat) :
    ∀ (n r : Nat), r < n → f r = key → (∀ i, i < n → f i = key → i = r) →
      ((List.range n).map f).count key = 1 := by
  intro n
  induction n with
  | zero =>
    intro r hr _ _
    exact absurd hr (Nat.not_lt_zero r)
  | succ n ih =>
    intro r hr hkey huniq
    rw [List.range_succ, List.map_append, List.count_append]
    by_cases hrn : r = n
    · have hpre : ((List.range n).map f).count key = 0 := by
        rw [List.count_eq_zero]
        intro hmem
        obtain ⟨i, hi, heq⟩ := List.mem_map.mp hmem
        have hin : i < n := by simpa using hi
        have := huniq i (by omega) heq
        omega
      rw [hpre]
      have hkey' : f n = key := by rw [← hrn]; exact hkey
      simp [hkey']
    · have hr' : r < n := by omega
      rw [ih r hr' hkey (fun i hi he => huniq i (by omega) he)]
      have hfn' : key ≠ f n := fun h =>
        hrn (huniq n (by omega) h.symm).symm
      have hsing : List.count key (List.map f [n]) = 0 := by
        rw [List.count_eq_zero]
        simp [hfn']
      rw [hsing]

/-- Claim C6: when a table is dropped, every aggregate with
`need_manual_drop_state = true` gets its drop function called exactly once
per payload row, on that row's stored state address plus the aggregate's
state offset (given pairwise-distinct per-row state addresses, which the
arena allocation guarantees); aggregates with `needs_drop = false` receive
no call at all; and the 1000-group table with one `needs_drop` aggregate
emits exactly 1000 drop calls. -/
theorem drop_calls_exactly_once (t : AggregateHashTable)
    (hinj : ∀ r1, r1 < t.len → ∀ r2, r2 < t.len →
      rowStateAddr t r1 = rowStateAddr t r2 → r1 = r2) :
    (∀ j a off row, t.payload.aggrs.get? j = some a →
        t.payload.state_addr_offsets.get? j = some off →
        a.needs_drop = true → row < t.len →
        (dropCalls t).count (j, rowStateAddr t row + off) = 1)
    ∧ (∀ j a, t.payload.aggrs.get? j = some a → a.needs_drop = false →
        ∀ addr, (j, addr) ∉ dropCalls t)
    ∧ (dropCalls (dropTable 1000)).length = 1000 := by
  refine ⟨?_, ?_, ?_⟩
  · intro j a off row hja hjo hdrop hrow
    have hzip : (t.payload.aggrs.zip t.payload.state_addr_offsets).get? j
        = some (a, off) := by
      rw [get?_zip_eq_def, hja, hjo]
    rw [count_dropCalls_get t (j, rowStateAddr t row + off) (a, off) hzip]
    simp only [dropBlock]
    rw [if_pos hdrop]
    exact count_map_range_eq_one _ _ t.len row hrow rfl
      (fun i hi he => by
        have h1 : rowStateAddr t i + off = rowStateAddr t row + off := by
          have := congrArg Prod.snd he
          simpa using this
        exact hinj i hi row hrow (by omega))
  · intro j a hja hdrop addr
    rw [← List.count_eq_zero (l := dropCalls t)]
    cases ho : t.payload.state_addr_offsets.get? j with
    | none =>
      have hzip : (t.payload.aggrs.zip t.payload.state_addr_offsets).get? j
          = none := by
        rw [get?_zip_eq_def, hja, ho]
      rw [count_dropCalls_none t (j, addr) hzip]
    | some off =>
      have hzip : (t.payload.aggrs.zip t.payload.state_addr_offsets).get? j
          = some (a, off) := by
        rw [get?_zip_eq_def, hja, ho]
      rw [count_dropCalls_get t (j, addr) (a, off) hzip]
      simp only [dropBlock]
      rw [if_neg (by simp [hdrop])]
      rfl
  · simp [dropCalls, dropBlock, dropTable, dropAggr, AggregateHashTable.len,
      Payload.len, List.enum]

/-- Claim C6 witness: on the concrete 3-group drop table, the single
`needs_drop` aggregate's drop call for row 1 appears exactly once. -/
theorem drop_calls_exactly_once_witness :
    (dropCalls (dropTable 3)).count (0, rowStateAddr (dropTable 3) 1 + 0) = 1 := by
  have h := drop_calls_exactly_once (dropTable 3) (by decide)
  exact h.1 0 dropAggr 0 1 rfl rfl rfl (by decide)

/-- The doubling loop computes the least multiple `nc * 2^j` exceeding
`len + row_count`, provided the fuel is adequate. -/
lemma growCapacityAux_spec :
    ∀ (fuel nc len rc : Nat), len + rc < nc * 2 ^ fuel →
      (∃ j, growCapacityAux fuel nc len rc = nc * 2 ^ j)
      ∧ len + rc < growCapacityAux fuel nc len rc
      ∧ ∀ i, len + rc < nc * 2 ^ i → growCapacityAux fuel nc len rc ≤ nc * 2 ^ i := by
  intro fuel
  induction fuel with
  | zero =>
    intro nc len rc h
    have hnc : len + rc < nc := by simpa using h
    refine ⟨⟨0, by simp [growCapacityAux]⟩, by simpa [growCapacityAux], ?_⟩
    intro i _
    have h1 : nc * 1 ≤ nc * 2 ^ i := Nat.mul_le_mul_left nc Nat.one_le_two_pow
    simpa [growCapacityAux] using h1
  | succ fuel ih =>
    intro nc len rc h
    by_cases hc : nc - len ≤ rc
    · have hle : nc ≤ len + rc := by omega
      have hpow : nc * 2 ^ (fuel + 1) = nc * 2 * 2 ^ fuel := by ring
      have h' : len + rc < nc * 2 * 2 ^ fuel := by rw [← hpow]; exact h
      obtain ⟨⟨j, hj⟩, hgt, hmin⟩ := ih (nc * 2) len rc h'
      rw [growCapacityAux, if_pos hc]
      refine ⟨⟨j + 1, by rw [hj]; ring⟩, hgt, ?_⟩
      intro i hi
      cases i with
      | zero =>
        have : len + rc < nc := by simpa using hi
        omega
      | succ i =>
        have hi' : len + rc < nc * 2 * 2 ^ i := by
          have : nc * 2 ^ (i + 1) = nc * 2 * 2 ^ i := by ring
          rw [← this]; exact hi
        have := hmin i hi'
        calc growCapacityAux fuel (nc * 2) len rc ≤ nc * 2 * 2 ^ i := this
          _ = nc * 2 ^ (i + 1) := by ring
    · have hlt : len + rc < nc := by omega
      rw [growCapacityAux, if_neg hc]
      refine ⟨⟨0, by simp⟩, by simpa, ?_⟩
      intro i _
      have h1 : nc * 1 ≤ nc * 2 ^ i := Nat.mul_le_mul_left nc Nat.one_le_two_pow
      simpa using h1

/-- Claim C5: `add_batch` (via `probe_and_create`) triggers a resize
exactly when `capacity - len ≤ N` or `len > capacity / 1.5` (the integer
comparison `len > resize_threshold capacity` coincides with the real
comparison `3 * len > 2 * capacity` because a power-of-two capacity is
never divisible by 3); when it does not trigger, the capacity check leaves
the table untouched; and when it triggers, the chosen capacity is the
least power of two `p ≥ 2 * capacity` with `p - len > N`. -/
theorem add_batch_resize_trigger (c len n k : Nat) (hc : c = 2 ^ k) :
    (needsResize c len n = true ↔ (c - len ≤ n ∨ 3 * len > 2 * c))
    ∧ (∀ t : AggregateHashTable, t.capacity = c → t.len = len →
        needsResize c len n = false → t.capacityCheck n = some t)
    ∧ (IsLeast {p : Nat | (∃ j, p = 2 ^ j) ∧ 2 * c ≤ p ∧ n < p - len}
        (chooseNewCapacity c len n)) := by
  have hpos : 1 ≤ c := by
    rw [hc]; exact Nat.one_le_two_pow
  have h3 : ¬ (3 ∣ 2 * c) := by
    intro hdvd
    have h2c : 2 * c = 2 ^ (k + 1) := by rw [hc]; ring
    rw [h2c] at hdvd
    have := Nat.Prime.dvd_of_dvd_pow Nat.prime_three hdvd
    omega
  have hmod : 2 * c % 3 ≠ 0 := fun hm => h3 (Nat.dvd_of_mod_eq_zero hm)
  refine ⟨?_, ?_, ?_⟩
  · unfold needsResize resize_threshold
    simp only [Bool.or_eq_true, decide_eq_true_eq]
    omega
  · intro t h1 h2 hfalse
    unfold AggregateHashTable.capacityCheck
    rw [h1, h2, hfalse]
    simp
  · have hfuel : len + n < c * 2 * 2 ^ (len + n + 2) := by
      have ha : len + n < 2 ^ (len + n) := Nat.lt_two_pow (len + n)
      have hb : 2 ^ (len + n) ≤ 2 ^ (len + n + 2) :=
        Nat.pow_le_pow_right (by omega) (by omega)
      have hd : 1 * 2 ^ (len + n + 2) ≤ c * 2 * 2 ^ (len + n + 2) :=
        Nat.mul_le_mul_right _ (by omega)
      omega
    obtain ⟨⟨j, hj⟩, hgt, hmin⟩ :=
      growCapacityAux_spec (len + n + 2) (c * 2) len n hfuel
    have hval : chooseNewCapacity c len n = c * 2 * 2 ^ j := by
      rw [chooseNewCapacity, hj]
    constructor
    · refine ⟨⟨k + 1 + j, ?_⟩, ?_, ?_⟩
      · rw [hval, hc]; ring
      · rw [hval]
        have h1 : c * 2 * 1 ≤ c * 2 * 2 ^ j :=
          Nat.mul_le_mul_left _ Nat.one_le_two_pow
        omega
      · have hgt' : len + n < chooseNewCapacity c len n := by
          rw [chooseNewCapacity]; exact hgt
        omega
    · rintro q ⟨⟨m, hm⟩, hq2c, hqn⟩
      have hm' : k + 1 ≤ m := by
        have h2c : 2 * c = 2 ^ (k + 1) := by rw [hc]; ring
        rw [h2c, hm] at hq2c
        exact (Nat.pow_le_pow_iff_right (by omega)).mp hq2c
      have hqform : q = c * 2 * 2 ^ (m - (k + 1)) := by
        have hsum : (k + 1) + (m - (k + 1)) = m := by omega
        calc q = 2 ^ m := hm
          _ = 2 ^ ((k + 1) + (m - (k + 1))) := by rw [hsum]
          _ = 2 ^ (k + 1) * 2 ^ (m - (k + 1)) := by rw [pow_add]
          _ = c * 2 * 2 ^ (m - (k + 1)) := by rw [hc]; ring
      have hqgt : len + n < c * 2 * 2 ^ (m - (k + 1)) := by
        rw [← hqform]; omega
      have hle := hmin (m - (k + 1)) hqgt
      rw [chooseNewCapacity, hqform]
      exact hle

/-- Claim C5 witness: at capacity 128 with 100 stored groups and an empty
batch, the trigger fires (100 > 85) and the chosen capacity is 256. -/
theorem add_batch_resize_trigger_witness :
    needsResize 128 100 0 = true ∧ chooseNewCapacity 128 100 0 = 256 := by
  constructor
  · exact (add_batch_resize_trigger 128 100 0 7 (by norm_num)).1.mpr
      (Or.inr (by norm_num))
  · rfl

/-- Claim C9 witness: on a fresh table the empty batch is a strict no-op. -/
theorem add_groups_empty_batch_witness :
    (AggregateHashTable.new [] []).add_groups (fun _ => 0) [] [] 0
      = .ok (0, AggregateHashTable.new [] []) := by
  exact (add_groups_empty_batch (AggregateHashTable.new [] [])
    (fun _ => 0) [] []).2.1 (by decide) (by decide)

/-- Bounds of the 128-bit decimal scalar (`T::Scalar::MAX` for
`Decimal128Type`, precision `MAX_DECIMAL128_PRECISION = 38`).  Modelled
from the spec: the decimal type definitions are not in the provided
sources; only boundedness matters for the overflow check. -/
def DECIMAL128_MAX : Int := 10 ^ 38 - 1

/-- Lower bound of the 128-bit decimal scalar (`T::Scalar::MIN`). -/
def DECIMAL128_MIN : Int := -(10 ^ 38 - 1)

/-- `DecimalSumState` from `aggregate_sum.rs`: the running decimal sum. -/
structure DecimalSumState where
  value : Int
deriving DecidableEq

/-- `DecimalSumState::<OVERFLOW, _>::add` from `aggregate_sum.rs`: add the
operand, then, exactly when the `OVERFLOW` const parameter is set and the
sum left `[MIN, MAX]`, return `ErrorCode::Overflow`.  The `i128`
two's-complement wrap is not modelled: for operands within decimal range a
wrapped sum lands outside `[MIN, MAX]` as well, so the decision is the
same. -/
def DecimalSumState.add (OVERFLOW : Bool) (s : DecimalSumState) (other : Int) :
    Except Err DecimalSumState :=
  let value := s.value + other
  if OVERFLOW ∧ (value > DECIMAL128_MAX ∨ value < DECIMAL128_MIN) then
    .error .Overflow
  else .ok { value := value }

/-- The `OVERFLOW` const parameter chosen by
`try_create_aggregate_sum_function` for a decimal argument: the source
computes `overflow = s.precision > 18` and instantiates
`DecimalSumState::<false, _>` when it holds, `DecimalSumState::<true, _>`
otherwise — so the checked instantiation is used exactly for narrow
(precision ≤ 18) source types. -/
def decimal_sum_overflow_param (precision : Nat) : Bool :=
  let overflow := decide (precision > 18)
  if overflow then false else true

/-- Claim C7: for a SUM over a narrow-precision decimal (precision ≤ 18)
the created state has `OVERFLOW = true`; with that instantiation any
addition whose running sum leaves `[MIN, MAX]` returns the Overflow error;
with `OVERFLOW = false` the check is inactive and `add` never fails; and
the core's accumulate loop propagates the Overflow error unreclassified. -/
theorem narrow_decimal_sum_overflow (precision : Nat) (hp : precision ≤ 18) :
    decimal_sum_overflow_param precision = true
    ∧ (∀ s : DecimalSumState, ∀ other : Int,
        (s.value + other > DECIMAL128_MAX ∨ s.value + other < DECIMAL128_MIN) →
        s.add (decimal_sum_overflow_param precision) other = .error .Overflow)
    ∧ (∀ s : DecimalSumState, ∀ other : Int,
        s.add false other = .ok { value := s.value + other })
    ∧ accumulateKeys
        { needs_drop := false, init := 0
        , acc := fun v o => (DecimalSumState.add true { value := v } o).map (·.value) }
        [5000] 0 [DECIMAL128_MAX] 1 [(5000, 1)] = .error .Overflow := by
  have hflag : decimal_sum_overflow_param precision = true := by
    have hnot : ¬ (18 < precision) := by omega
    simp [decimal_sum_overflow_param, hnot]
  refine ⟨hflag, ?_, ?_, ?_⟩
  · intro s other hout
    rw [hflag]
    unfold DecimalSumState.add
    rw [if_pos ⟨rfl, hout⟩]
  · intro s other
    unfold DecimalSumState.add
    rw [if_neg]
    intro hcontra
    exact Bool.false_ne_true hcontra.1
  · rfl

/-- Claim C7 witness: at precision 18 the checked instantiation is chosen,
and adding 1 to a running sum already at `DECIMAL128_MAX` overflows. -/
theorem narrow_decimal_sum_overflow_witness :
    DecimalSumState.add (decimal_sum_overflow_param 18)
        { value := DECIMAL128_MAX } 1 = .error .Overflow := by
  exact (narrow_decimal_sum_overflow 18 (by decide)).2.1
    { value := DECIMAL128_MAX } 1 (Or.inl (by decide))

/-- `Bitmap::unset_bits`, modelled: the number of cleared validity bits. -/
def unset_bits (v : List Bool) : Nat := v.count false

/-- `sum_batch` from `aggregate_sum.rs`.  The `t.as_()` widening
conversion becomes `conv`; the `TSum` accumulator is modelled on unbounded
`Int` (both branches perform the identical additions, so machine
wrap-around would affect them identically).  The source match is kept: the
masked branch runs only for `Some(v)` with `v.unset_bits() > 0`; the
wildcard branch (absent bitmap, or bitmap with no cleared bit) sums every
value. -/
def sum_batch {α : Type} (conv : α → Int) (inner : List α)
    (validity : Option (List Bool)) : Int :=
  match validity with
  | some v =>
    if unset_bits v > 0 then
      (inner.zip v).foldl (fun sum tb => if tb.2 then sum + conv tb.1 else sum) 0
    else inner.foldl (fun sum t => sum + conv t) 0
  | none => inner.foldl (fun sum t => sum + conv t) 0

/-- Follows the claim's words: the sum of the converted values at exactly
the positions whose validity bit is set. -/
def selectedSum {α : Type} (conv : α → Int) (inner : List α) (v : List Bool) : Int :=
  ((inner.zip v).filter (fun tb => tb.2)).foldl (fun sum tb => sum + conv tb.1) 0

/-- The sum of all converted values. -/
def totalSum {α : Type} (conv : α → Int) (inner : List α) : Int :=
  inner.foldl (fun sum t => sum + conv t) 0

/-- The guarded fold of the masked branch equals the fold over the
filtered list. -/
lemma foldl_if_filter {α : Type} (conv : α → Int) :
    ∀ (l : List (α × Bool)) (s : Int),
      l.foldl (fun sum tb => if tb.2 then sum + conv tb.1 else sum) s
        = (l.filter (fun tb => tb.2)).foldl (fun sum tb => sum + conv tb.1) s := by
  intro l
  induction l with
  | nil => intro s; rfl
  | cons tb l ih =>
    intro s
    cases htb : tb.2 with
    | false => simp [List.foldl_cons, List.filter_cons, htb, ih]
    | true => simp [List.foldl_cons, List.filter_cons, htb, ih]

/-- Folding a first-component-only function over a full-length zip equals
folding over the first list. -/
lemma foldl_zip_fst {α : Type} (conv : α → Int) :
    ∀ (inner : List α) (v : List Bool) (s : Int), v.length = inner.length →
      (inner.zip v).foldl (fun sum tb => sum + conv tb.1) s
        = inner.foldl (fun sum t => sum + conv t) s := by
  intro inner
  induction inner with
  | nil => intro v s _; rfl
  | cons x xs ih =>
    intro v s hlen
    cases v with
    | nil => simp at hlen
    | cons b bs =>
      simp only [List.zip_cons_cons, List.foldl_cons]
      exact ih bs (s + conv x) (by simpa using hlen)

/-- Filtering by the validity bit keeps everything when every bit is set. -/
lemma filter_zip_all_true {α : Type} (inner : List α) (v : List Bool)
    (hall : ∀ b ∈ v, b = true) :
    (inner.zip v).filter (fun tb => tb.2) = inner.zip v := by
  apply List.filter_eq_self.mpr
  intro tb hmem
  obtain ⟨a, b⟩ := tb
  exact hall b (List.of_mem_zip hmem).2

/-- A bitmap with no cleared bit is all-true. -/
lemma all_true_of_unset_bits_zero (v : List Bool) (h : unset_bits v = 0) :
    ∀ b ∈ v, b = true := by
  intro b hb
  cases b
  · exfalso
    rw [unset_bits, List.count_eq_zero] at h
    exact h hb
  · rfl

/-- Claim C10: for a buffer and a same-length bitmap, `sum_batch` returns
the sum of the converted values at exactly the set positions; with no
bitmap it returns the sum of all values; and on an all-set bitmap the
masked and unmasked computations agree, so the branch split is sound. -/
theorem sum_batch_masked (α : Type) (conv : α → Int) (inner : List α)
    (v : List Bool) (hlen : v.length = inner.length) :
    sum_batch conv inner (some v) = selectedSum conv inner v
    ∧ sum_batch conv inner none = totalSum conv inner
    ∧ selectedSum conv inner (List.replicate inner.length true)
        = totalSum conv inner := by
  refine ⟨?_, rfl, ?_⟩
  · simp only [sum_batch]
    by_cases h0 : unset_bits v > 0
    · rw [if_pos h0]
      exact foldl_if_filter conv (inner.zip v) 0
    · rw [if_neg h0]
      have hz : unset_bits v = 0 := by omega
      have hall := all_true_of_unset_bits_zero v hz
      unfold selectedSum
      rw [filter_zip_all_true inner v hall]
      exact (foldl_zip_fst conv inner v 0 hlen).symm
  · unfold selectedSum
    have hall : ∀ b ∈ List.replicate inner.length true, b = true :=
      fun b hb => List.eq_of_mem_replicate hb
    rw [filter_zip_all_true inner _ hall]
    exact foldl_zip_fst conv inner _ 0 (by simp)

/-- Claim C10 witness: on `[1, 2, 3]` with bitmap `[true, false, true]`,
the masked sum keeps positions 0 and 2 and equals 4. -/
theorem sum_batch_masked_witness :
    sum_batch (fun x : Int => x) [1, 2, 3] (some [true, false, true])
      = selectedSum (fun x : Int => x) [1, 2, 3] [true, false, true]
    ∧ sum_batch (fun x : Int => x) [1, 2, 3] (some [true, false, true]) = 4 := by
  refine ⟨(sum_batch_masked Int _ [1, 2, 3] [true, false, true] (by decide)).1, ?_⟩
  decide
